import Mathlib

/-!
# Replay loop of the surface scrolling grid example (`src/index.js`)

Shallow embedding of `streamData` (lines 119-142 of `src/index.js`).

* A JavaScript number is an IEEE 754 binary64 value. A finite one is the rational
  it denotes; `roundToDouble` is the rounding (to nearest, ties to even) that each
  arithmetic operation of line 125 applies to its exact result. Values beyond the
  largest finite double are not turned into `Infinity`; differences, products and
  quotients of time stamps of `window.performance.now()` stay far below it.
* Counters are integers (`Int`), exact as JavaScript numbers are below `2 ^ 53`;
  the JavaScript remainder `%` is the truncated remainder `Int.tmod`, with a zero
  divisor giving no number (`NaN`).
* A JavaScript array lookup that misses (`undefined`) is `none`.
* The two series of a channel are external sinks; each call made to them is
  recorded, in order, in a log of `SinkCall`s.
* `requestAnimationFrame(streamData)` (line 140) runs `streamData` again at a
  later time stamp; `runTicks` runs it once for each time stamp of a list.
-/

namespace SurfaceScrollingGrid

/-- Sampling rate as samples per second (`const sampleRateHz = 35`). -/
def sampleRateHz : ℚ := 35

/-- The two sinks of a channel: `heatmapSeries2D.addIntensityValues` and
`surfaceSeries3D.addValues`. -/
inductive Sink where
  | heatmapSeries2D
  | surfaceSeries3D
  deriving DecidableEq, Repr

/-- An entry of `channelList`, with the fields `streamData` reads from the data set. -/
structure Channel (α : Type) where
  name : String
  data : List α
  columnIndex : Nat

/-- The variables `streamData` closes over: `channelList` (line 59), `tStart`
(line 119) and `pushedDataCount` (line 120). -/
structure StreamState (α : Type) where
  channelList : List (Channel α)
  tStart : ℚ
  pushedDataCount : Int

/-- One call of a sink: the index of the channel in `channelList`, which of its
two series was called, and the array `newDataPoints` handed over. -/
structure SinkCall (α : Type) where
  channel : Nat
  sink : Sink
  batch : List (Option α)

/-- The integer nearest to `q`, the even one of the two when `q` lies halfway. -/
def roundHalfEven (q : ℚ) : Int :=
  if q - ⌊q⌋ < 1 / 2 then ⌊q⌋
  else if 1 / 2 < q - ⌊q⌋ then ⌊q⌋ + 1
  else if ⌊q⌋ % 2 = 0 then ⌊q⌋ else ⌊q⌋ + 1

/-- The binary exponent of the last place of a double of the size of `x`: 52 below
the exponent of `x`, and `-1074` throughout the subnormal range. -/
def ulpExponent (x : ℚ) : Int := max (Int.log 2 |x|) (-1022) - 52

/-- IEEE 754 binary64 rounding of an exact result `x`: the nearest multiple of
`2 ^ ulpExponent x`, ties to the even multiple. -/
def roundToDouble (x : ℚ) : ℚ :=
  (roundHalfEven (x / 2 ^ ulpExponent x) : ℚ) * 2 ^ ulpExponent x

/-- JavaScript `a % b` on integers: `NaN` (here `none`) for a zero divisor, else
the remainder with the sign of the dividend. -/
def jsRem (a b : Int) : Option Int :=
  if b = 0 then none else some (Int.tmod a b)

/-- JavaScript `xs[i]`: `undefined` (here `none`) if `i` is `NaN` or not an index of `xs`. -/
def jsIndex {α : Type} (xs : List α) (i : Option Int) : Option α :=
  match i with
  | none => none
  | some i => if i < 0 then none else xs[i.toNat]?

/-- Line 125: `Math.floor((sampleRateHz * (tNow - tStart)) / 1000)`, the
subtraction, the product and the quotient each rounded to a double. -/
def shouldBeDataPointsCount (tStart tNow : ℚ) : Int :=
  ⌊roundToDouble (roundToDouble (sampleRateHz * roundToDouble (tNow - tStart)) / 1000)⌋

/-- Line 126: `Math.min(shouldBeDataPointsCount - pushedDataCount, 100)`. -/
def newDataPointsCount {α : Type} (s : StreamState α) (tNow : ℚ) : Int :=
  min (shouldBeDataPointsCount s.tStart tNow - s.pushedDataCount) 100

/-- Lines 129-134: the array `newDataPoints` built for one channel. -/
def newDataPoints {α : Type} (data : List α) (pushedDataCount count : Int) : List (Option α) :=
  (List.range count.toNat).map fun (iDp : Nat) =>
    let iData := jsRem (pushedDataCount + (iDp : Int)) (data.length : Int)
    jsIndex data iData

/-- Lines 128-137: the calls made while visiting the channels from index `i` on. -/
def forEachChannel {α : Type} (pushedDataCount count : Int) :
    Nat → List (Channel α) → List (SinkCall α)
  | _, [] => []
  | i, channel :: rest =>
    let batch := newDataPoints channel.data pushedDataCount count
    ⟨i, Sink.heatmapSeries2D, batch⟩ :: ⟨i, Sink.surfaceSeries3D, batch⟩ ::
      forEachChannel pushedDataCount count (i + 1) rest

/-- Lines 121-141: one run of `streamData` at time `tNow`; returns the variables
after the run and the sink calls made. Only `pushedDataCount` is assigned. -/
def streamData {α : Type} (s : StreamState α) (tNow : ℚ) :
    StreamState α × List (SinkCall α) :=
  if newDataPointsCount s tNow > 0 then
    ({ s with pushedDataCount := s.pushedDataCount + newDataPointsCount s tNow },
      forEachChannel s.pushedDataCount (newDataPointsCount s tNow) 0 s.channelList)
  else
    (s, [])

/-- Lines 119-120: the variables when streaming is set up at time `tStart`. -/
def initState {α : Type} (channelList : List (Channel α)) (tStart : ℚ) : StreamState α :=
  ⟨channelList, tStart, 0⟩

/-- The animation loop: `streamData` run once per time stamp of `ticks`, in
order, from state `s`; returns the last state and the log of all sink calls. -/
def runTicks {α : Type} : StreamState α → List ℚ → StreamState α × List (SinkCall α)
  | s, [] => (s, [])
  | s, tNow :: rest =>
    let r := streamData s tNow
    let r2 := runTicks r.1 rest
    (r2.1, r.2 ++ r2.2)

/-- The batches handed to sink `k` of channel `c`, in delivery order. -/
def batchesOf {α : Type} (c : Nat) (k : Sink) (log : List (SinkCall α)) : List (List (Option α)) :=
  (log.filter fun call => decide (call.channel = c) && decide (call.sink = k)).map fun call =>
    call.batch

/-- All frames handed to sink `k` of channel `c`, in delivery order. -/
def delivered {α : Type} (c : Nat) (k : Sink) (log : List (SinkCall α)) : List (Option α) :=
  (batchesOf c k log).flatten

/-- The frames of `data` read cyclically: `n` frames from position `p` on. -/
def cyclicFrames {α : Type} (data : List α) (p n : Nat) : List (Option α) :=
  (List.range n).map fun j => data[(p + j) % data.length]?

/-- The value of `pushedDataCount` after the first `n` ticks of `ticks`, in a run
set up at time `tStart`. -/
def pushedAfter {α : Type} (channelList : List (Channel α)) (tStart : ℚ) (ticks : List ℚ)
    (n : Nat) : Int :=
  (runTicks (initState channelList tStart) (ticks.take n)).1.pushedDataCount

/-- The variables after `n` ticks that all happen at the same instant `tNow`, in
a run set up at time `tStart`. -/
def stalled {α : Type} (channelList : List (Channel α)) (tStart tNow : ℚ) (n : Nat) :
    StreamState α :=
  (runTicks (initState channelList tStart) (List.replicate n tNow)).1

/-- A channel of ten frames, frame `i` being the number `i`. -/
def tenFrames : Channel Nat := ⟨"Channel 1", List.range 10, 0⟩

/-- A channel of five hundred frames, frame `i` being the number `i`. -/
def fiveHundredFrames : Channel Nat := ⟨"Channel 1", List.range 500, 0⟩

/-- A channel of three frames, frame `i` being the number `i`. -/
def threeFrames : Channel Nat := ⟨"Channel 2", List.range 3, 1⟩

/-- The double that the literal `900.1` denotes. -/
def double900_1 : ℚ := 7917363329289421 / 2 ^ 43

/-- The double that the literal `2100.1` denotes. -/
def double2100_1 : ℚ := 4618168738984755 / 2 ^ 41

/-- The double that the literal `3900.1` denotes. -/
def double3900_1 : ℚ := 8576410598978355 / 2 ^ 41

/-- The double that the literal `85.71428571428571` denotes. -/
def double85_71 : ℚ := 6031606643799771 / 2 ^ 46

/-! ## Basic facts about the embedding -/

theorem floor_le_roundHalfEven (q : ℚ) : ⌊q⌋ ≤ roundHalfEven q := by
  unfold roundHalfEven
  split_ifs <;> omega

theorem roundHalfEven_le_floor_add_one (q : ℚ) : roundHalfEven q ≤ ⌊q⌋ + 1 := by
  unfold roundHalfEven
  split_ifs <;> omega

theorem roundHalfEven_intCast (n : Int) : roundHalfEven (n : ℚ) = n := by
  unfold roundHalfEven
  rw [Int.floor_intCast, sub_self, if_pos (by norm_num)]

theorem roundHalfEven_mono {q r : ℚ} (h : q ≤ r) : roundHalfEven q ≤ roundHalfEven r := by
  rcases lt_or_eq_of_le (Int.floor_mono h) with hlt | heq
  · exact le_trans (roundHalfEven_le_floor_add_one q)
      (le_trans (Int.add_one_le_of_lt hlt) (floor_le_roundHalfEven r))
  · have hsub : q - (⌊q⌋ : ℚ) ≤ r - (⌊q⌋ : ℚ) := sub_le_sub_right h _
    unfold roundHalfEven
    rw [← heq]
    split_ifs <;> first | omega | (exfalso; linarith)

theorem roundHalfEven_eq_of_near {q : ℚ} (m : Int) (hlo : (m : ℚ) - 1 / 2 < q)
    (hhi : q < (m : ℚ) + 1 / 2) : roundHalfEven q = m := by
  rcases le_or_lt (m : ℚ) q with h | h
  · have hf : ⌊q⌋ = m := Int.floor_eq_iff.mpr ⟨h, by linarith⟩
    unfold roundHalfEven
    rw [hf, if_pos (by linarith)]
  · have hf : ⌊q⌋ = m - 1 := Int.floor_eq_iff.mpr ⟨by push_cast; linarith, by push_cast; linarith⟩
    unfold roundHalfEven
    rw [hf, if_neg (by push_cast; linarith), if_pos (by push_cast; linarith)]
    ring

theorem roundHalfEven_tie_odd (k : Int) (hk : k % 2 = 1) :
    roundHalfEven ((k : ℚ) + 1 / 2) = k + 1 := by
  have hf : ⌊(k : ℚ) + 1 / 2⌋ = k := Int.floor_eq_iff.mpr ⟨by linarith, by linarith⟩
  unfold roundHalfEven
  rw [hf, if_neg (by norm_num), if_neg (by norm_num), if_neg (by omega)]

theorem two_zpow_pos (e : Int) : (0 : ℚ) < 2 ^ e := zpow_pos (by norm_num) e

theorem roundToDouble_zero : roundToDouble 0 = 0 := by
  simp [roundToDouble, roundHalfEven]

theorem roundToDouble_nonneg {x : ℚ} (hx : 0 ≤ x) : 0 ≤ roundToDouble x := by
  unfold roundToDouble
  apply mul_nonneg _ (le_of_lt (two_zpow_pos _))
  have h0 : (((0 : Int) : ℚ)) ≤ x / 2 ^ ulpExponent x := by
    rw [Int.cast_zero]
    exact div_nonneg hx (le_of_lt (two_zpow_pos _))
  have := roundHalfEven_mono h0
  rw [roundHalfEven_intCast] at this
  exact_mod_cast this

theorem ulpExponent_mono {x y : ℚ} (hx : 0 < x) (h : x ≤ y) : ulpExponent x ≤ ulpExponent y := by
  unfold ulpExponent
  have hy : 0 < y := lt_of_lt_of_le hx h
  rw [abs_of_pos hx, abs_of_pos hy]
  have := Int.log_mono_right (b := 2) hx h
  have h2 := le_max_right (Int.log 2 y) (-1022)
  have h1 := le_max_left (Int.log 2 y) (-1022)
  have h3 : max (Int.log 2 x) (-1022) ≤ max (Int.log 2 y) (-1022) := max_le (by omega) h2
  omega

theorem two_pow_mul_zpow (n : Nat) (u : Int) :
    (((2 : Int) ^ n : Int) : ℚ) * 2 ^ u = 2 ^ (u + (n : Int)) := by
  rw [zpow_add₀ (by norm_num : (2 : ℚ) ≠ 0), zpow_natCast]
  push_cast
  ring

theorem roundToDouble_le_binade_top {x : ℚ} (hx : 0 < x) :
    roundToDouble x ≤ 2 ^ (ulpExponent x + 53) := by
  have hlt : x < 2 ^ (ulpExponent x + 53) := by
    have h1 : x < ((2 : ℕ) : ℚ) ^ (Int.log 2 x + 1) := Int.lt_zpow_succ_log_self (by norm_num) x
    rw [Nat.cast_ofNat] at h1
    refine lt_of_lt_of_le h1 (zpow_le_zpow_right₀ (by norm_num) ?_)
    unfold ulpExponent
    rw [abs_of_pos hx]
    have := le_max_left (Int.log 2 x) (-1022)
    omega
  have hpow := two_pow_mul_zpow 53 (ulpExponent x)
  have hq : x / 2 ^ ulpExponent x ≤ (((2 : Int) ^ 53 : Int) : ℚ) := by
    rw [div_le_iff₀ (two_zpow_pos _), hpow]
    exact le_of_lt hlt
  have hr := roundHalfEven_mono hq
  rw [roundHalfEven_intCast] at hr
  have hr2 : ((roundHalfEven (x / 2 ^ ulpExponent x) : Int) : ℚ) ≤
      (((2 : Int) ^ 53 : Int) : ℚ) := by exact_mod_cast hr
  unfold roundToDouble
  have hfin : (2 : ℚ) ^ (ulpExponent x + 53) = (((2 : Int) ^ 53 : Int) : ℚ) * 2 ^ ulpExponent x :=
    hpow.symm
  rw [hfin]
  exact mul_le_mul_of_nonneg_right hr2 (le_of_lt (two_zpow_pos _))

theorem binade_bottom_le_roundToDouble {y : ℚ} (hy : 0 < y) (hn : -1022 ≤ Int.log 2 y) :
    (2 : ℚ) ^ (ulpExponent y + 52) ≤ roundToDouble y := by
  have hu : ulpExponent y + 52 = Int.log 2 y := by
    unfold ulpExponent
    rw [abs_of_pos hy, max_eq_left hn]
    ring
  have hle : (2 : ℚ) ^ (ulpExponent y + 52) ≤ y := by
    rw [hu]
    have h1 : ((2 : ℕ) : ℚ) ^ Int.log 2 y ≤ y := Int.zpow_log_le_self (by norm_num) hy
    rw [Nat.cast_ofNat] at h1
    exact h1
  have hpow := two_pow_mul_zpow 52 (ulpExponent y)
  have hq : (((2 : Int) ^ 52 : Int) : ℚ) ≤ y / 2 ^ ulpExponent y := by
    rw [le_div_iff₀ (two_zpow_pos _), hpow]
    exact hle
  have hr := roundHalfEven_mono hq
  rw [roundHalfEven_intCast] at hr
  have hr2 : (((2 : Int) ^ 52 : Int) : ℚ) ≤
      ((roundHalfEven (y / 2 ^ ulpExponent y) : Int) : ℚ) := by exact_mod_cast hr
  unfold roundToDouble
  have hfin : (2 : ℚ) ^ (ulpExponent y + 52) = (((2 : Int) ^ 52 : Int) : ℚ) * 2 ^ ulpExponent y :=
    hpow.symm
  rw [hfin]
  exact mul_le_mul_of_nonneg_right hr2 (le_of_lt (two_zpow_pos _))

theorem roundToDouble_mono {x y : ℚ} (hx : 0 ≤ x) (h : x ≤ y) :
    roundToDouble x ≤ roundToDouble y := by
  rcases eq_or_lt_of_le hx with h0 | hpos
  · rw [← h0, roundToDouble_zero]
    exact roundToDouble_nonneg (le_trans hx h)
  · have hy : 0 < y := lt_of_lt_of_le hpos h
    rcases lt_or_eq_of_le (ulpExponent_mono hpos h) with hlt | heq
    · have hn : -1022 ≤ Int.log 2 y := by
        unfold ulpExponent at hlt
        rw [abs_of_pos hpos, abs_of_pos hy] at hlt
        have h1 := le_max_right (Int.log 2 x) (-1022)
        by_contra hcon
        rw [max_eq_right (by omega : Int.log 2 y ≤ -1022)] at hlt
        omega
      refine le_trans (roundToDouble_le_binade_top hpos)
        (le_trans ?_ (binade_bottom_le_roundToDouble hy hn))
      exact zpow_le_zpow_right₀ (by norm_num) (by omega)
    · unfold roundToDouble
      rw [← heq]
      apply mul_le_mul_of_nonneg_right _ (le_of_lt (two_zpow_pos _))
      have := roundHalfEven_mono
        (div_le_div_of_nonneg_right h (le_of_lt (two_zpow_pos (ulpExponent x))))
      exact_mod_cast this

theorem ulpExponent_eq {x : ℚ} (e : Int) (he : -1022 ≤ e) (hlo : 2 ^ e ≤ x)
    (hhi : x < 2 ^ (e + 1)) : ulpExponent x = e - 52 := by
  have hx : 0 < x := lt_of_lt_of_le (two_zpow_pos e) hlo
  have h1 : e ≤ Int.log 2 x := by
    apply (Int.zpow_le_iff_le_log (by norm_num) hx).mp
    rw [Nat.cast_ofNat]
    exact hlo
  have h2 : Int.log 2 x < e + 1 := by
    apply (Int.lt_zpow_iff_log_lt (by norm_num) hx).mp
    rw [Nat.cast_ofNat]
    exact hhi
  unfold ulpExponent
  rw [abs_of_pos hx, max_eq_left (by omega)]
  omega

theorem roundToDouble_eq {x : ℚ} (e m : Int) (he : -1022 ≤ e) (hlo : 2 ^ e ≤ x)
    (hhi : x < 2 ^ (e + 1)) (hm : roundHalfEven (x / 2 ^ (e - 52)) = m) :
    roundToDouble x = (m : ℚ) * 2 ^ (e - 52) := by
  unfold roundToDouble
  rw [ulpExponent_eq e he hlo hhi, hm]

theorem roundToDouble_of_multiple {x : ℚ} (e m : Int) (he : -1022 ≤ e) (hlo : 2 ^ e ≤ x)
    (hhi : x < 2 ^ (e + 1)) (hx : x = (m : ℚ) * 2 ^ (e - 52)) : roundToDouble x = x := by
  have hm : roundHalfEven (x / 2 ^ (e - 52)) = m := by
    rw [← roundHalfEven_intCast m]
    congr 1
    rw [hx, mul_div_assoc, div_self (ne_of_gt (two_zpow_pos _)), mul_one]
  rw [roundToDouble_eq e m he hlo hhi hm, ← hx]

theorem shouldBeDataPointsCount_mono (tStart : ℚ) {t u : ℚ} (ht : tStart ≤ t) (h : t ≤ u) :
    shouldBeDataPointsCount tStart t ≤ shouldBeDataPointsCount tStart u := by
  unfold shouldBeDataPointsCount sampleRateHz
  have h0 : 0 ≤ t - tStart := sub_nonneg.mpr ht
  have h1 : roundToDouble (t - tStart) ≤ roundToDouble (u - tStart) :=
    roundToDouble_mono h0 (sub_le_sub_right h _)
  have h2 : (35 : ℚ) * roundToDouble (t - tStart) ≤ 35 * roundToDouble (u - tStart) :=
    mul_le_mul_of_nonneg_left h1 (by norm_num)
  have h3 := roundToDouble_mono (mul_nonneg (by norm_num) (roundToDouble_nonneg h0)) h2
  have h4 : roundToDouble (35 * roundToDouble (t - tStart)) / 1000 ≤
      roundToDouble (35 * roundToDouble (u - tStart)) / 1000 :=
    div_le_div_of_nonneg_right h3 (by norm_num)
  have h5 : 0 ≤ roundToDouble (35 * roundToDouble (t - tStart)) / 1000 :=
    div_nonneg (roundToDouble_nonneg (mul_nonneg (by norm_num) (roundToDouble_nonneg h0)))
      (by norm_num)
  exact Int.floor_mono (roundToDouble_mono h5 h4)

theorem shouldBeDataPointsCount_nonneg {tStart t : ℚ} (h : tStart ≤ t) :
    0 ≤ shouldBeDataPointsCount tStart t := by
  unfold shouldBeDataPointsCount sampleRateHz
  have h0 : 0 ≤ t - tStart := sub_nonneg.mpr h
  exact Int.floor_nonneg.mpr (roundToDouble_nonneg (div_nonneg
    (roundToDouble_nonneg (mul_nonneg (by norm_num) (roundToDouble_nonneg h0))) (by norm_num)))

theorem jsRem_nonneg {a b : Int} (ha : 0 ≤ a) (hb : 0 < b) :
    jsRem a b = some (a % b) := by
  unfold jsRem
  rw [if_neg (ne_of_gt hb), Int.tmod_eq_emod ha (le_of_lt hb)]

theorem jsIndex_jsRem {α : Type} (data : List α) (p : Int) (j : Nat) (hp : 0 ≤ p)
    (hne : data ≠ []) :
    jsIndex data (jsRem (p + (j : Int)) (data.length : Int)) =
      data[(p.toNat + j) % data.length]? := by
  have hlen : 0 < data.length := List.length_pos.mpr hne
  have hpos : (0 : Int) < (data.length : Int) := by exact_mod_cast hlen
  have hsum : (0 : Int) ≤ p + (j : Int) := by omega
  rw [jsRem_nonneg hsum hpos]
  have hnn : ¬ (p + (j : Int)) % (data.length : Int) < 0 :=
    not_lt.mpr (Int.emod_nonneg _ (ne_of_gt hpos))
  have hcast : ((p + (j : Int)) % (data.length : Int)).toNat = (p.toNat + j) % data.length := by
    have h1 : p + (j : Int) = ((p.toNat + j : Nat) : Int) := by
      push_cast
      rw [Int.toNat_of_nonneg hp]
    rw [h1, ← Int.ofNat_emod, Int.toNat_natCast]
  simp only [jsIndex, if_neg hnn, hcast]

theorem newDataPoints_length {α : Type} (data : List α) (p n : Int) :
    (newDataPoints data p n).length = n.toNat := by
  simp [newDataPoints]

theorem newDataPoints_eq_cyclicFrames {α : Type} (data : List α) (p n : Int) (hp : 0 ≤ p)
    (hne : data ≠ []) :
    newDataPoints data p n = cyclicFrames data p.toNat n.toNat := by
  unfold newDataPoints cyclicFrames
  apply List.map_congr_left
  intro j _
  exact jsIndex_jsRem data p j hp hne

theorem cyclicFrames_length {α : Type} (data : List α) (p n : Nat) :
    (cyclicFrames data p n).length = n := by
  simp [cyclicFrames]

theorem cyclicFrames_getElem? {α : Type} (data : List α) (p n i : Nat) (hi : i < n) :
    (cyclicFrames data p n)[i]? = some (data[(p + i) % data.length]?) := by
  simp [cyclicFrames, List.getElem?_map, List.getElem?_range hi]

theorem batchesOf_forEachChannel {α : Type} (p n : Int) (c : Nat) (k : Sink) :
    ∀ (channelList : List (Channel α)) (i : Nat), i ≤ c →
      batchesOf c k (forEachChannel p n i channelList) =
        ((channelList[c - i]?).toList.map fun channel => newDataPoints channel.data p n)
  | [], i, _ => by simp [forEachChannel, batchesOf]
  | channel :: rest, i, hi => by
    rcases Nat.eq_or_lt_of_le hi with h | h
    · subst h
      have hrest : ∀ (l : List (Channel α)) (j : Nat), i < j →
          batchesOf i k (forEachChannel p n j l) = [] := by
        intro l
        induction l with
        | nil => intro j _; simp [forEachChannel, batchesOf]
        | cons x xs ih =>
          intro j hj
          have hne : ¬ j = i := by omega
          have := ih (j + 1) (by omega)
          simp only [batchesOf] at this
          simp [forEachChannel, batchesOf, hne, this]
      have h2 := hrest rest (i + 1) (Nat.lt_succ_self i)
      simp only [batchesOf] at h2
      cases k <;> simp [forEachChannel, batchesOf, h2]
    · have ih := batchesOf_forEachChannel p n c k rest (i + 1) h
      have hne : ¬ i = c := by omega
      have hsub : c - i = (c - (i + 1)) + 1 := by omega
      simp only [batchesOf] at ih
      simp [forEachChannel, batchesOf, hne, ih, hsub]

theorem mem_forEachChannel {α : Type} (p n : Int) (call : SinkCall α) :
    ∀ (channelList : List (Channel α)) (i : Nat), call ∈ forEachChannel p n i channelList →
      ∃ channel ∈ channelList, call.batch = newDataPoints channel.data p n
  | [], _, h => by simp [forEachChannel] at h
  | channel :: rest, i, h => by
    simp only [forEachChannel, List.mem_cons] at h
    rcases h with h | h | h
    · exact ⟨channel, List.mem_cons_self _ _, by rw [h]⟩
    · exact ⟨channel, List.mem_cons_self _ _, by rw [h]⟩
    · obtain ⟨ch, hch, hb⟩ := mem_forEachChannel p n call rest (i + 1) h
      exact ⟨ch, List.mem_cons_of_mem _ hch, hb⟩

theorem forEachChannel_length {α : Type} (p n : Int) :
    ∀ (channelList : List (Channel α)) (i : Nat),
      (forEachChannel p n i channelList).length = 2 * channelList.length
  | [], _ => by simp [forEachChannel]
  | _ :: rest, i => by
    simp only [forEachChannel, List.length_cons, forEachChannel_length p n rest (i + 1)]
    omega

theorem streamData_of_pos {α : Type} (s : StreamState α) (tNow : ℚ)
    (h : 0 < newDataPointsCount s tNow) :
    streamData s tNow =
      (⟨s.channelList, s.tStart, s.pushedDataCount + newDataPointsCount s tNow⟩,
        forEachChannel s.pushedDataCount (newDataPointsCount s tNow) 0 s.channelList) := by
  unfold streamData
  rw [if_pos h]

theorem streamData_of_not_pos {α : Type} (s : StreamState α)
    (tNow : ℚ) (h : ¬ 0 < newDataPointsCount s tNow) :
    streamData s tNow = (s, []) := by
  unfold streamData
  rw [if_neg h]

theorem streamData_tStart {α : Type} (s : StreamState α)
    (tNow : ℚ) : (streamData s tNow).1.tStart = s.tStart := by
  by_cases h : 0 < newDataPointsCount s tNow
  · rw [streamData_of_pos s tNow h]
  · rw [streamData_of_not_pos s tNow h]

theorem streamData_channelList {α : Type} (s : StreamState α)
    (tNow : ℚ) : (streamData s tNow).1.channelList = s.channelList := by
  by_cases h : 0 < newDataPointsCount s tNow
  · rw [streamData_of_pos s tNow h]
  · rw [streamData_of_not_pos s tNow h]

theorem streamData_pushedDataCount {α : Type} (s : StreamState α)
    (tNow : ℚ) :
    (streamData s tNow).1.pushedDataCount =
      s.pushedDataCount + max (newDataPointsCount s tNow) 0 := by
  by_cases h : 0 < newDataPointsCount s tNow
  · rw [streamData_of_pos s tNow h, max_eq_left (le_of_lt h)]
  · rw [streamData_of_not_pos s tNow h, max_eq_right (not_lt.mp h), add_zero]

theorem streamData_pushedDataCount_le {α : Type} (s : StreamState α) (tNow : ℚ) :
    s.pushedDataCount ≤ (streamData s tNow).1.pushedDataCount := by
  rw [streamData_pushedDataCount]
  have := le_max_right (newDataPointsCount s tNow) 0
  omega

theorem streamData_log {α : Type} (s : StreamState α) (tNow : ℚ) :
    (streamData s tNow).2 = [] ∨
      (0 < newDataPointsCount s tNow ∧
        (streamData s tNow).2 =
          forEachChannel s.pushedDataCount (newDataPointsCount s tNow) 0 s.channelList) := by
  by_cases h : 0 < newDataPointsCount s tNow
  · right
    rw [streamData_of_pos s tNow h]
    exact ⟨h, rfl⟩
  · left
    rw [streamData_of_not_pos s tNow h]

theorem batchesOf_streamData {α : Type} (s : StreamState α)
    (tNow : ℚ) (c : Nat) (k : Sink) (channel : Channel α)
    (hc : s.channelList[c]? = some channel) :
    batchesOf c k (streamData s tNow).2 =
      if 0 < newDataPointsCount s tNow then
        [newDataPoints channel.data s.pushedDataCount (newDataPointsCount s tNow)]
      else [] := by
  by_cases h : 0 < newDataPointsCount s tNow
  · rw [streamData_of_pos s tNow h, if_pos h]
    simp only
    rw [batchesOf_forEachChannel _ _ c k s.channelList 0 (Nat.zero_le c), Nat.sub_zero, hc]
    rfl
  · rw [streamData_of_not_pos s tNow h, if_neg h]
    rfl

theorem delivered_streamData {α : Type} (s : StreamState α)
    (tNow : ℚ) (c : Nat) (k : Sink) (channel : Channel α)
    (hc : s.channelList[c]? = some channel) :
    delivered c k (streamData s tNow).2 =
      newDataPoints channel.data s.pushedDataCount
        ((streamData s tNow).1.pushedDataCount - s.pushedDataCount) := by
  unfold delivered
  rw [batchesOf_streamData s tNow c k channel hc, streamData_pushedDataCount]
  by_cases h : 0 < newDataPointsCount s tNow
  · rw [if_pos h, max_eq_left (le_of_lt h)]
    simp
  · rw [if_neg h, max_eq_right (not_lt.mp h)]
    simp [newDataPoints]

theorem delivered_append {α : Type} (c : Nat) (k : Sink) (l₁ l₂ : List (SinkCall α)) :
    delivered c k (l₁ ++ l₂) = delivered c k l₁ ++ delivered c k l₂ := by
  simp [delivered, batchesOf]

theorem runTicks_nil {α : Type} (s : StreamState α) :
    runTicks s [] = (s, []) := rfl

theorem runTicks_cons {α : Type} (s : StreamState α) (tNow : ℚ)
    (rest : List ℚ) :
    runTicks s (tNow :: rest) =
      ((runTicks (streamData s tNow).1 rest).1,
        (streamData s tNow).2 ++
          (runTicks (streamData s tNow).1 rest).2) := rfl

theorem runTicks_append {α : Type} :
    ∀ (ticks₁ ticks₂ : List ℚ) (s : StreamState α),
      runTicks s (ticks₁ ++ ticks₂) =
        ((runTicks (runTicks s ticks₁).1 ticks₂).1,
          (runTicks s ticks₁).2 ++
            (runTicks (runTicks s ticks₁).1 ticks₂).2)
  | [], ticks₂, s => by simp [runTicks_nil]
  | t :: ticks₁, ticks₂, s => by
    rw [List.cons_append, runTicks_cons, runTicks_append ticks₁ ticks₂, runTicks_cons]
    simp [List.append_assoc]

theorem runTicks_tStart {α : Type} :
    ∀ (ticks : List ℚ) (s : StreamState α), (runTicks s ticks).1.tStart = s.tStart
  | [], _ => rfl
  | t :: ticks, s => by
    rw [runTicks_cons]
    simp only
    rw [runTicks_tStart ticks, streamData_tStart]

theorem runTicks_channelList {α : Type} :
    ∀ (ticks : List ℚ) (s : StreamState α),
      (runTicks s ticks).1.channelList = s.channelList
  | [], _ => rfl
  | t :: ticks, s => by
    rw [runTicks_cons]
    simp only
    rw [runTicks_channelList ticks, streamData_channelList]

theorem runTicks_pushedDataCount_le {α : Type} :
    ∀ (ticks : List ℚ) (s : StreamState α),
      s.pushedDataCount ≤ (runTicks s ticks).1.pushedDataCount
  | [], _ => le_refl _
  | t :: ticks, s => by
    rw [runTicks_cons]
    exact le_trans (streamData_pushedDataCount_le s t)
      (runTicks_pushedDataCount_le ticks _)

theorem newDataPoints_append {α : Type} (data : List α) (p n m : Int) (hn : 0 ≤ n)
    (hm : 0 ≤ m) :
    newDataPoints data p n ++ newDataPoints data (p + n) m = newDataPoints data p (n + m) := by
  unfold newDataPoints
  rw [Int.toNat_add hn hm, List.range_add, List.map_append, List.map_map]
  congr 1
  apply List.map_congr_left
  intro j _
  have : p + n + (j : Int) = p + ((n.toNat + j : Nat) : Int) := by
    push_cast
    rw [Int.toNat_of_nonneg hn]
    ring
  simp [this]

theorem delivered_runTicks {α : Type} (c : Nat) (k : Sink) (channel : Channel α) :
    ∀ (ticks : List ℚ) (s : StreamState α), s.channelList[c]? = some channel →
      delivered c k (runTicks s ticks).2 =
        newDataPoints channel.data s.pushedDataCount
          ((runTicks s ticks).1.pushedDataCount - s.pushedDataCount)
  | [], s, _ => by simp [runTicks_nil, delivered, batchesOf, newDataPoints]
  | t :: ticks, s, hc => by
    have hc2 : (streamData s t).1.channelList[c]? = some channel := by
      rw [streamData_channelList]
      exact hc
    rw [runTicks_cons]
    simp only
    rw [delivered_append, delivered_streamData s t c k channel hc,
      delivered_runTicks c k channel ticks _ hc2]
    have h1 := streamData_pushedDataCount_le s t
    have h2 := runTicks_pushedDataCount_le ticks (streamData s t).1
    have h3 : s.pushedDataCount +
        ((streamData s t).1.pushedDataCount - s.pushedDataCount) =
          (streamData s t).1.pushedDataCount := by ring
    have h4 := newDataPoints_append channel.data s.pushedDataCount
      ((streamData s t).1.pushedDataCount - s.pushedDataCount)
      ((runTicks (streamData s t).1 ticks).1.pushedDataCount -
        (streamData s t).1.pushedDataCount) (by omega) (by omega)
    rw [h3] at h4
    rw [h4]
    congr 1
    ring

theorem emod_toNat_eq (p : Int) (j len : Nat) (hp : 0 ≤ p) :
    ((p + (j : Int)) % (len : Int)).toNat = (p.toNat + j) % len := by
  have h1 : p + (j : Int) = ((p.toNat + j : Nat) : Int) := by
    push_cast
    rw [Int.toNat_of_nonneg hp]
  rw [h1, ← Int.ofNat_emod, Int.toNat_natCast]

theorem getElem?_mod_isSome {α : Type} (data : List α) (i : Nat) (hne : data ≠ []) :
    ∃ frame, data[i % data.length]? = some frame := by
  have hlt : i % data.length < data.length := Nat.mod_lt _ (List.length_pos.mpr hne)
  exact ⟨data[i % data.length], List.getElem?_eq_getElem hlt⟩

theorem not_mem_newDataPoints {α : Type} (data : List α) (p n : Int) (hp : 0 ≤ p)
    (hne : data ≠ []) : none ∉ newDataPoints data p n := by
  rw [newDataPoints_eq_cyclicFrames data p n hp hne]
  unfold cyclicFrames
  intro hmem
  obtain ⟨j, _, hj⟩ := List.mem_map.mp hmem
  obtain ⟨frame, hf⟩ := getElem?_mod_isSome data (p.toNat + j) hne
  rw [hf] at hj
  cases hj

theorem not_mem_batch_runTicks {α : Type} :
    ∀ (ticks : List ℚ) (s : StreamState α),
      (∀ channel ∈ s.channelList, channel.data ≠ []) → 0 ≤ s.pushedDataCount →
      ∀ call ∈ (runTicks s ticks).2, none ∉ call.batch
  | [], s, _, _, call, h => by simp [runTicks_nil] at h
  | t :: ticks, s, hne, hp, call, h => by
    rw [runTicks_cons] at h
    rcases List.mem_append.mp h with h | h
    · rcases streamData_log s t with h0 | ⟨_, h1⟩
      · rw [h0] at h
        cases h
      · rw [h1] at h
        obtain ⟨channel, hch, hb⟩ := mem_forEachChannel _ _ call s.channelList 0 h
        rw [hb]
        exact not_mem_newDataPoints channel.data _ _ hp (hne channel hch)
    · refine not_mem_batch_runTicks ticks (streamData s t).1 ?_
        (le_trans hp (streamData_pushedDataCount_le s t)) call h
      rw [streamData_channelList]
      exact hne

/-! ## Line 125 at concrete time stamps -/

theorem round_1000 : roundToDouble 1000 = 1000 :=
  roundToDouble_of_multiple 9 (1000 * 2 ^ 43) (by decide) (by norm_num) (by norm_num)
    (by norm_num)

theorem round_35000 : roundToDouble 35000 = 35000 :=
  roundToDouble_of_multiple 15 (35000 * 2 ^ 37) (by decide) (by norm_num) (by norm_num)
    (by norm_num)

theorem round_35 : roundToDouble 35 = 35 :=
  roundToDouble_of_multiple 5 (35 * 2 ^ 47) (by decide) (by norm_num) (by norm_num)
    (by norm_num)

theorem round_10000 : roundToDouble 10000 = 10000 :=
  roundToDouble_of_multiple 13 (10000 * 2 ^ 39) (by decide) (by norm_num) (by norm_num)
    (by norm_num)

theorem round_350000 : roundToDouble 350000 = 350000 :=
  roundToDouble_of_multiple 18 (350000 * 2 ^ 34) (by decide) (by norm_num) (by norm_num)
    (by norm_num)

theorem round_350 : roundToDouble 350 = 350 :=
  roundToDouble_of_multiple 8 (350 * 2 ^ 44) (by decide) (by norm_num) (by norm_num)
    (by norm_num)

theorem round_430 : roundToDouble 430 = 430 :=
  roundToDouble_of_multiple 8 (430 * 2 ^ 44) (by decide) (by norm_num) (by norm_num)
    (by norm_num)

theorem round_15050 : roundToDouble 15050 = 15050 :=
  roundToDouble_of_multiple 13 (15050 * 2 ^ 39) (by decide) (by norm_num) (by norm_num)
    (by norm_num)

theorem round_42000 : roundToDouble 42000 = 42000 :=
  roundToDouble_of_multiple 15 (42000 * 2 ^ 37) (by decide) (by norm_num) (by norm_num)
    (by norm_num)

theorem round_42 : roundToDouble 42 = 42 :=
  roundToDouble_of_multiple 5 (42 * 2 ^ 47) (by decide) (by norm_num) (by norm_num)
    (by norm_num)

theorem round_105000 : roundToDouble 105000 = 105000 :=
  roundToDouble_of_multiple 16 (105000 * 2 ^ 36) (by decide) (by norm_num) (by norm_num)
    (by norm_num)

theorem round_105 : roundToDouble 105 = 105 :=
  roundToDouble_of_multiple 6 (105 * 2 ^ 46) (by decide) (by norm_num) (by norm_num)
    (by norm_num)

theorem due_1000 : shouldBeDataPointsCount 0 1000 = 35 := by
  unfold shouldBeDataPointsCount sampleRateHz
  rw [sub_zero, round_1000, show (35 : ℚ) * 1000 = 35000 by norm_num, round_35000,
    show (35000 : ℚ) / 1000 = 35 by norm_num, round_35]
  norm_num

theorem due_10000 : shouldBeDataPointsCount 0 10000 = 350 := by
  unfold shouldBeDataPointsCount sampleRateHz
  rw [sub_zero, round_10000, show (35 : ℚ) * 10000 = 350000 by norm_num, round_350000,
    show (350000 : ℚ) / 1000 = 350 by norm_num, round_350]
  norm_num

theorem round_15_05 :
    roundToDouble (15050 / 1000) = ((8472396798990746 : Int) : ℚ) * 2 ^ ((3 : Int) - 52) :=
  roundToDouble_eq 3 8472396798990746 (by decide) (by norm_num) (by norm_num)
    (roundHalfEven_eq_of_near 8472396798990746 (by norm_num) (by norm_num))

theorem due_430 : shouldBeDataPointsCount 0 430 = 15 := by
  unfold shouldBeDataPointsCount sampleRateHz
  rw [sub_zero, round_430, show (35 : ℚ) * 430 = 15050 by norm_num, round_15050, round_15_05]
  exact Int.floor_eq_iff.mpr ⟨by norm_num, by norm_num⟩

theorem round_sub_900_1_2100_1 : roundToDouble (double2100_1 - double900_1) = 1200 := by
  have hq : (double2100_1 - double900_1) / 2 ^ ((10 : Int) - 52) =
      ((5277655813324799 : Int) : ℚ) + 1 / 2 := by
    norm_num [double2100_1, double900_1]
  rw [roundToDouble_eq 10 (5277655813324799 + 1) (by decide)
    (by norm_num [double2100_1, double900_1]) (by norm_num [double2100_1, double900_1])
    (by rw [hq]; exact roundHalfEven_tie_odd 5277655813324799 (by decide))]
  norm_num

theorem due_900_1_2100_1 : shouldBeDataPointsCount double900_1 double2100_1 = 42 := by
  unfold shouldBeDataPointsCount sampleRateHz
  rw [round_sub_900_1_2100_1, show (35 : ℚ) * 1200 = 42000 by norm_num, round_42000,
    show (42000 : ℚ) / 1000 = 42 by norm_num, round_42]
  norm_num

theorem round_sub_900_1_3900_1 : roundToDouble (double3900_1 - double900_1) = 3000 := by
  rw [roundToDouble_eq 11 6597069766656000 (by decide)
    (by norm_num [double3900_1, double900_1]) (by norm_num [double3900_1, double900_1])
    (roundHalfEven_eq_of_near 6597069766656000 (by norm_num [double3900_1, double900_1])
      (by norm_num [double3900_1, double900_1]))]
  norm_num

theorem due_900_1_3900_1 : shouldBeDataPointsCount double900_1 double3900_1 = 105 := by
  unfold shouldBeDataPointsCount sampleRateHz
  rw [round_sub_900_1_3900_1, show (35 : ℚ) * 3000 = 105000 by norm_num, round_105000,
    show (105000 : ℚ) / 1000 = 105 by norm_num, round_105]
  norm_num

theorem round_3 : roundToDouble 3 = 3 :=
  roundToDouble_of_multiple 1 (3 * 2 ^ 51) (by decide) (by norm_num) (by norm_num)
    (by norm_num)

theorem round_85_71 : roundToDouble double85_71 = double85_71 :=
  roundToDouble_of_multiple 6 6031606643799771 (by decide) (by norm_num [double85_71])
    (by norm_num [double85_71]) (by norm_num [double85_71])

theorem round_mul_85_71 : roundToDouble (35 * double85_71) = 3000 := by
  rw [roundToDouble_eq 11 6597069766656000 (by decide)
    (by norm_num [double85_71]) (by norm_num [double85_71])
    (roundHalfEven_eq_of_near 6597069766656000 (by norm_num [double85_71])
      (by norm_num [double85_71]))]
  norm_num

theorem due_85_71 : shouldBeDataPointsCount 0 double85_71 = 3 := by
  unfold shouldBeDataPointsCount sampleRateHz
  rw [sub_zero, round_85_71, round_mul_85_71, show (3000 : ℚ) / 1000 = 3 by norm_num, round_3]
  norm_num

/-! ## The claims -/

/-- C1: for a channel with a non-empty frame sequence and any finite sequence of
`streamData` ticks from `pushedDataCount = 0`, the frames handed to either sink of
the channel, concatenated in delivery order, number exactly `pushedDataCount`, and
the frame at position `i` is the source frame at index `i mod frameCount`. -/
theorem cyclic_replay_correct {α : Type} (channelList : List (Channel α)) (tStart : ℚ)
    (ticks : List ℚ) (c : Nat) (k : Sink) (channel : Channel α)
    (hc : channelList[c]? = some channel) (hne : channel.data ≠ []) :
    ((delivered c k (runTicks (initState channelList tStart) ticks).2).length : Int) =
        (runTicks (initState channelList tStart) ticks).1.pushedDataCount ∧
      ∀ i : Nat, i < (delivered c k (runTicks (initState channelList tStart) ticks).2).length →
        ∃ frame, channel.data[i % channel.data.length]? = some frame ∧
          (delivered c k (runTicks (initState channelList tStart) ticks).2)[i]? =
            some (some frame) := by
  have hrun := delivered_runTicks c k channel ticks (initState channelList tStart) hc
  have hle := runTicks_pushedDataCount_le ticks (initState channelList tStart)
  have h0 : (initState channelList tStart).pushedDataCount = 0 := rfl
  rw [h0] at hrun hle
  rw [sub_zero, newDataPoints_eq_cyclicFrames _ _ _ (le_refl 0) hne] at hrun
  rw [hrun, cyclicFrames_length]
  refine ⟨Int.toNat_of_nonneg hle, ?_⟩
  intro i hi
  obtain ⟨frame, hf⟩ := getElem?_mod_isSome channel.data i hne
  refine ⟨frame, hf, ?_⟩
  rw [cyclicFrames_getElem? _ _ _ _ hi]
  simp only [Int.toNat_zero, Nat.zero_add]
  rw [hf]

/-- C2: whatever the state and the tick time, one call of `streamData` raises
`pushedDataCount` by at most 100 and hands over only batches of at most 100 frames. -/
theorem per_tick_cap {α : Type} (s : StreamState α) (tNow : ℚ) :
    (streamData s tNow).1.pushedDataCount - s.pushedDataCount ≤ 100 ∧
      ∀ call ∈ (streamData s tNow).2, call.batch.length ≤ 100 := by
  have hcap : newDataPointsCount s tNow ≤ 100 := min_le_right _ _
  constructor
  · rw [streamData_pushedDataCount]
    have := max_le hcap (by norm_num : (0 : Int) ≤ 100)
    omega
  · intro call hcall
    rcases streamData_log s tNow with h0 | ⟨_, h1⟩
    · rw [h0] at hcall
      cases hcall
    · rw [h1] at hcall
      obtain ⟨channel, _, hb⟩ := mem_forEachChannel _ _ call s.channelList 0 hcall
      rw [hb, newDataPoints_length]
      omega

theorem pushed_430_then_1000 :
    (runTicks (initState [tenFrames] 0) [430, 1000]).1.pushedDataCount = 35 := by
  simp [runTicks, streamData, newDataPointsCount, initState, due_1000, due_430]

/-- C1 at ten frames: after a first tick that emits 15 frames, the next frame
delivered (position 15) is source frame 5. -/
theorem cyclic_replay_correct_witness :
    tenFrames.data ≠ [] ∧
      (delivered 0 Sink.heatmapSeries2D
        (runTicks (initState [tenFrames] 0) [430, 1000]).2)[15]? = some (some 5) := by
  have hne : tenFrames.data ≠ [] := by decide
  have h := cyclic_replay_correct [tenFrames] 0 [430, 1000] 0 Sink.heatmapSeries2D
    tenFrames rfl hne
  refine ⟨hne, ?_⟩
  have hlen : 15 < (delivered 0 Sink.heatmapSeries2D
      (runTicks (initState [tenFrames] 0) [430, 1000]).2).length := by
    have h1 := h.1
    rw [pushed_430_then_1000] at h1
    omega
  obtain ⟨frame, hf, hd⟩ := h.2 15 hlen
  have h5 : tenFrames.data[15 % tenFrames.data.length]? = some 5 := by decide
  rw [h5] at hf
  cases hf
  exact hd

/-- C2 after a stall of ten seconds: the single call made to the heat map
carries at most 100 frames. -/
theorem per_tick_cap_witness :
    (⟨0, Sink.heatmapSeries2D, newDataPoints tenFrames.data 0 100⟩ : SinkCall Nat) ∈
        (streamData (initState [tenFrames] 0) 10000).2 ∧
      (newDataPoints tenFrames.data 0 100).length ≤ 100 := by
  have hmem : (⟨0, Sink.heatmapSeries2D, newDataPoints tenFrames.data 0 100⟩ : SinkCall Nat) ∈
      (streamData (initState [tenFrames] 0) 10000).2 := by
    simp [streamData, newDataPointsCount, initState, due_10000, forEachChannel]
  exact ⟨hmem, (per_tick_cap (initState [tenFrames] 0) 10000).2 _ hmem⟩

theorem cyclicFrames_zero_eq_take {α : Type} (data : List α) (n : Nat) (h : n ≤ data.length) :
    cyclicFrames data 0 n = (data.take n).map some := by
  apply List.ext_getElem?
  intro i
  by_cases hi : i < n
  · have hlt : i < data.length := lt_of_lt_of_le hi h
    rw [cyclicFrames_getElem? _ _ _ _ hi, Nat.zero_add, Nat.mod_eq_of_lt hlt,
      List.getElem?_map, List.getElem?_take_of_lt hi, List.getElem?_eq_getElem hlt]
    rfl
  · have h1 : (cyclicFrames data 0 n).length ≤ i := by
      rw [cyclicFrames_length]
      omega
    have h2 : ((data.take n).map some).length ≤ i := by
      rw [List.length_map, List.length_take]
      omega
    rw [List.getElem?_eq_none h1, List.getElem?_eq_none h2]

/-- C4: in one tick, with `due` the value line 125 computes (the floor of
`35 * (tNow - tStart) / 1000` evaluated in doubles) and
`toEmit = min (due - pushedDataCount) 100`: if `toEmit > 0`, each sink of each
channel is called exactly once, with a batch of exactly `toEmit` frames, the `j`-th
of which is (in a state with `pushedDataCount ≥ 0`, for a non-empty channel) the
source frame at index `(pushedDataCount + j) mod frameCount`, and
`pushedDataCount` grows by `toEmit`; if `toEmit ≤ 0`, no sink is called and
`pushedDataCount` stays. In both cases `tStart` and the channel list with its
source data stay as they were. -/
theorem per_tick_postcondition {α : Type} (s : StreamState α) (tNow : ℚ) :
    newDataPointsCount s tNow =
        min (⌊roundToDouble (roundToDouble (35 * roundToDouble (tNow - s.tStart)) / 1000)⌋ -
          s.pushedDataCount) 100 ∧
      (0 < newDataPointsCount s tNow →
        (streamData s tNow).1.pushedDataCount =
            s.pushedDataCount + newDataPointsCount s tNow ∧
          (streamData s tNow).2.length = 2 * s.channelList.length ∧
          ∀ (c : Nat) (k : Sink) (channel : Channel α), s.channelList[c]? = some channel →
            ∃ batch, batchesOf c k (streamData s tNow).2 = [batch] ∧
              (batch.length : Int) = newDataPointsCount s tNow ∧
              (0 ≤ s.pushedDataCount → channel.data ≠ [] →
                ∀ j : Nat, (j : Int) < newDataPointsCount s tNow →
                  ∃ frame,
                    channel.data[((s.pushedDataCount + (j : Int)) %
                      (channel.data.length : Int)).toNat]? = some frame ∧
                    batch[j]? = some (some frame))) ∧
      (newDataPointsCount s tNow ≤ 0 →
        (streamData s tNow).2 = [] ∧
          (streamData s tNow).1.pushedDataCount = s.pushedDataCount) ∧
      (streamData s tNow).1.tStart = s.tStart ∧
      (streamData s tNow).1.channelList = s.channelList := by
  refine ⟨rfl, ?_, ?_, streamData_tStart s tNow, streamData_channelList s tNow⟩
  · intro hpos
    refine ⟨?_, ?_, ?_⟩
    · rw [streamData_of_pos s tNow hpos]
    · rw [streamData_of_pos s tNow hpos]
      exact forEachChannel_length _ _ s.channelList 0
    · intro c k channel hc
      refine ⟨newDataPoints channel.data s.pushedDataCount (newDataPointsCount s tNow), ?_, ?_, ?_⟩
      · rw [batchesOf_streamData s tNow c k channel hc, if_pos hpos]
      · rw [newDataPoints_length]
        exact Int.toNat_of_nonneg (le_of_lt hpos)
      · intro hp hne j hj
        rw [emod_toNat_eq _ _ _ hp]
        obtain ⟨frame, hf⟩ := getElem?_mod_isSome channel.data (s.pushedDataCount.toNat + j) hne
        refine ⟨frame, hf, ?_⟩
        have hj2 : j < (newDataPointsCount s tNow).toNat := by omega
        rw [newDataPoints_eq_cyclicFrames _ _ _ hp hne, cyclicFrames_getElem? _ _ _ _ hj2, hf]
  · intro hle
    rw [streamData_of_not_pos s tNow (not_lt.mpr hle)]
    exact ⟨rfl, rfl⟩

/-- C4 with a ten-frame and a three-frame channel, set up at the time stamp 900.1
and run at 2100.1: line 125 gives 42, the heat map of the first channel gets one
batch of 42 frames, whose frame 12 is source frame 2. -/
theorem per_tick_postcondition_witness :
    ∃ batch, batchesOf 0 Sink.heatmapSeries2D
        (streamData (initState [tenFrames, threeFrames] double900_1) double2100_1).2 = [batch] ∧
      (batch.length : Int) = 42 ∧ batch[12]? = some (some 2) := by
  have hcount :
      newDataPointsCount (initState [tenFrames, threeFrames] double900_1) double2100_1 = 42 := by
    simp [newDataPointsCount, initState, due_900_1_2100_1]
  have h := (per_tick_postcondition (initState [tenFrames, threeFrames] double900_1)
    double2100_1).2.1 (by rw [hcount]; decide)
  obtain ⟨batch, hb, hlen, hframes⟩ := h.2.2 0 Sink.heatmapSeries2D tenFrames rfl
  obtain ⟨frame, hf, hbf⟩ := hframes (le_refl 0) (by decide) 12 (by rw [hcount]; decide)
  have h2 : tenFrames.data[(((initState [tenFrames, threeFrames] double900_1).pushedDataCount +
      ((12 : Nat) : Int)) % (tenFrames.data.length : Int)).toNat]? = some 2 := by decide
  rw [h2] at hf
  cases hf
  exact ⟨batch, hb, by rw [hlen, hcount], hbf⟩

/-- C8: from `pushedDataCount = 0`, when the due count `d` that line 125 computes
(the floor of `35 * elapsed / 1000` evaluated in doubles) satisfies `0 < d ≤ 100`
and the channel has at least `d` frames, one tick hands each sink of the channel
exactly one batch, of `d` frames, namely the source frames `0 .. d - 1` in order,
and leaves `pushedDataCount = d`. -/
theorem on_schedule_first_tick {α : Type} (channelList : List (Channel α)) (tStart tNow : ℚ)
    (d : Int) (hd : d = shouldBeDataPointsCount tStart tNow) (h0 : 0 < d) (h100 : d ≤ 100)
    (c : Nat) (k : Sink) (channel : Channel α) (hc : channelList[c]? = some channel)
    (hlen : d ≤ (channel.data.length : Int)) :
    batchesOf c k (streamData (initState channelList tStart) tNow).2 =
        [(channel.data.take d.toNat).map some] ∧
      (((channel.data.take d.toNat).map some).length : Int) = d ∧
      (streamData (initState channelList tStart) tNow).1.pushedDataCount = d := by
  have hcount : newDataPointsCount (initState channelList tStart) tNow = d := by
    have hdue : shouldBeDataPointsCount (initState channelList tStart).tStart tNow = d := by
      rw [hd]
      rfl
    unfold newDataPointsCount
    rw [hdue]
    simp only [initState, sub_zero]
    exact min_eq_left h100
  have hpos : 0 < newDataPointsCount (initState channelList tStart) tNow := by rw [hcount]; exact h0
  have hne : channel.data ≠ [] := by
    intro hnil
    rw [hnil] at hlen
    simp at hlen
    omega
  have hle : d.toNat ≤ channel.data.length := by omega
  refine ⟨?_, ?_, ?_⟩
  · rw [batchesOf_streamData _ tNow c k channel hc, if_pos hpos, hcount]
    have hz : (initState channelList tStart).pushedDataCount = 0 := rfl
    rw [hz, newDataPoints_eq_cyclicFrames _ _ _ (le_refl 0) hne, Int.toNat_zero,
      cyclicFrames_zero_eq_take _ _ hle]
  · rw [List.length_map, List.length_take, min_eq_left hle]
    exact Int.toNat_of_nonneg (le_of_lt h0)
  · rw [streamData_of_pos _ tNow hpos, hcount]
    simp [initState]

/-- C8 at one second with five hundred frames: due 35, one batch of the source
frames 0 to 34, `pushedDataCount = 35`. And at the time stamp 85.71428571428571,
where line 125 gives 3: one batch of the source frames 0 to 2,
`pushedDataCount = 3`. -/
theorem on_schedule_first_tick_witness :
    (batchesOf 0 Sink.surfaceSeries3D
        (streamData (initState [fiveHundredFrames] 0) 1000).2 =
        [(List.range 35).map some] ∧
      (streamData (initState [fiveHundredFrames] 0) 1000).1.pushedDataCount = 35) ∧
      batchesOf 0 Sink.surfaceSeries3D
        (streamData (initState [fiveHundredFrames] 0) double85_71).2 =
        [(List.range 3).map some] ∧
      (streamData (initState [fiveHundredFrames] 0) double85_71).1.pushedDataCount = 3 := by
  have h := on_schedule_first_tick [fiveHundredFrames] 0 1000 35 due_1000.symm (by decide)
    (by decide) 0 Sink.surfaceSeries3D fiveHundredFrames rfl (by simp [fiveHundredFrames])
  have g := on_schedule_first_tick [fiveHundredFrames] 0 double85_71 3 due_85_71.symm
    (by decide) (by decide) 0 Sink.surfaceSeries3D fiveHundredFrames rfl
    (by simp [fiveHundredFrames])
  refine ⟨⟨?_, h.2.2⟩, ?_, g.2.2⟩
  · rw [h.1]
    simp [fiveHundredFrames, List.take_range]
  · rw [g.1]
    simp [fiveHundredFrames, List.take_range]

theorem streamData_pushedDataCount_of_le {α : Type} (s : StreamState α) (tNow : ℚ)
    (h : s.pushedDataCount ≤ shouldBeDataPointsCount s.tStart tNow) :
    (streamData s tNow).1.pushedDataCount =
      min (shouldBeDataPointsCount s.tStart tNow) (s.pushedDataCount + 100) := by
  rw [streamData_pushedDataCount]
  unfold newDataPointsCount
  rcases le_total (shouldBeDataPointsCount s.tStart tNow - s.pushedDataCount) 100 with h1 | h1
  · rw [min_eq_left h1, max_eq_left (by omega), min_eq_left (by omega)]
    ring
  · rw [min_eq_right h1, max_eq_left (by norm_num), min_eq_right (by omega)]

theorem runTicks_pushedDataCount_le_bound {α : Type} (bound : Int) :
    ∀ (ticks : List ℚ) (s : StreamState α), s.pushedDataCount ≤ bound →
      (∀ t ∈ ticks, shouldBeDataPointsCount s.tStart t ≤ bound) →
      (runTicks s ticks).1.pushedDataCount ≤ bound
  | [], _, hs, _ => hs
  | t :: ticks, s, hs, hb => by
    rw [runTicks_cons]
    apply runTicks_pushedDataCount_le_bound bound ticks
    · rw [streamData_pushedDataCount]
      have h1 : newDataPointsCount s t ≤ shouldBeDataPointsCount s.tStart t - s.pushedDataCount :=
        min_le_left _ _
      have h2 := hb t (List.mem_cons_self _ _)
      rcases le_total (newDataPointsCount s t) 0 with h3 | h3
      · rw [max_eq_right h3]
        omega
      · rw [max_eq_left h3]
        omega
    · intro u hu
      rw [streamData_tStart]
      exact hb u (List.mem_cons_of_mem _ hu)

theorem pushedAfter_zero {α : Type} (channelList : List (Channel α)) (tStart : ℚ)
    (ticks : List ℚ) : pushedAfter channelList tStart ticks 0 = 0 := by
  simp [pushedAfter, runTicks_nil, initState]

theorem pushedAfter_succ_eq_streamData {α : Type} (channelList : List (Channel α)) (tStart : ℚ)
    (ticks : List ℚ) (n : Nat) (t : ℚ) (hn : ticks[n]? = some t) :
    pushedAfter channelList tStart ticks (n + 1) =
      (streamData
        (runTicks (initState channelList tStart) (ticks.take n)).1 t).1.pushedDataCount := by
  unfold pushedAfter
  have hlt : n < ticks.length := by
    rcases Nat.lt_or_ge n ticks.length with h | h
    · exact h
    · rw [List.getElem?_eq_none h] at hn
      cases hn
  have ht : ticks[n] = t := by
    rw [List.getElem?_eq_getElem hlt] at hn
    exact Option.some.inj hn
  rw [List.take_succ, List.getElem?_eq_getElem hlt, ht, Option.toList_some, runTicks_append,
    runTicks_cons, runTicks_nil]

theorem pushedAfter_le_due {α : Type} (channelList : List (Channel α)) (tStart : ℚ)
    (ticks : List ℚ) (hsorted : ticks.Pairwise (· ≤ ·)) (hstart : ∀ t ∈ ticks, tStart ≤ t)
    (n : Nat) (t : ℚ) (hn : ticks[n]? = some t) :
    pushedAfter channelList tStart ticks n ≤ shouldBeDataPointsCount tStart t := by
  unfold pushedAfter
  have hlt : n < ticks.length := by
    rcases Nat.lt_or_ge n ticks.length with h | h
    · exact h
    · rw [List.getElem?_eq_none h] at hn
      cases hn
  have ht : ticks[n] = t := by
    rw [List.getElem?_eq_getElem hlt] at hn
    exact Option.some.inj hn
  have htmem : t ∈ ticks := by
    rw [← ht]
    exact List.getElem_mem hlt
  apply runTicks_pushedDataCount_le_bound
  · exact shouldBeDataPointsCount_nonneg (hstart t htmem)
  · intro u hu
    obtain ⟨⟨j, hj⟩, hju⟩ := List.mem_iff_get.mp hu
    simp only [List.length_take, lt_min_iff] at hj
    rw [List.get_eq_getElem, List.getElem_take] at hju
    have hmem : ticks[j] ∈ ticks := List.getElem_mem hj.2
    have hle : ticks[j] ≤ ticks[n] := List.pairwise_iff_getElem.mp hsorted j n hj.2 hlt hj.1
    rw [← hju, ← ht]
    exact shouldBeDataPointsCount_mono tStart (hstart _ hmem) hle

theorem pushedAfter_succ {α : Type} (channelList : List (Channel α)) (tStart : ℚ)
    (ticks : List ℚ) (hsorted : ticks.Pairwise (· ≤ ·)) (hstart : ∀ t ∈ ticks, tStart ≤ t)
    (n : Nat) (t : ℚ) (hn : ticks[n]? = some t) :
    pushedAfter channelList tStart ticks (n + 1) =
      min (shouldBeDataPointsCount tStart t) (pushedAfter channelList tStart ticks n + 100) := by
  rw [pushedAfter_succ_eq_streamData channelList tStart ticks n t hn]
  have hle := pushedAfter_le_due channelList tStart ticks hsorted hstart n t hn
  unfold pushedAfter at hle ⊢
  have hts : (runTicks (initState channelList tStart) (ticks.take n)).1.tStart = tStart := by
    rw [runTicks_tStart]
    rfl
  rw [streamData_pushedDataCount_of_le, hts]
  rw [hts]
  exact hle

/-- C3: in a run from `pushedDataCount = 0` whose tick times are non-decreasing and
not earlier than `tStart`, every tick leaves `pushedDataCount` at least as large
as before it and at most the due count of that tick, the value
`Math.floor((sampleRateHz * (tNow - tStart)) / 1000)` that line 125 computes in
doubles. -/
theorem schedule_invariant {α : Type} (channelList : List (Channel α)) (tStart : ℚ)
    (ticks : List ℚ) (hsorted : ticks.Pairwise (· ≤ ·)) (hstart : ∀ t ∈ ticks, tStart ≤ t)
    (n : Nat) (tNow : ℚ) (hn : ticks[n]? = some tNow) :
    pushedAfter channelList tStart ticks n ≤ pushedAfter channelList tStart ticks (n + 1) ∧
      pushedAfter channelList tStart ticks (n + 1) ≤
        ⌊roundToDouble (roundToDouble (sampleRateHz * roundToDouble (tNow - tStart)) / 1000)⌋ := by
  constructor
  · rw [pushedAfter_succ_eq_streamData channelList tStart ticks n tNow hn]
    exact streamData_pushedDataCount_le _ tNow
  · rw [pushedAfter_succ channelList tStart ticks hsorted hstart n tNow hn]
    exact min_le_left _ _

theorem pairwise_1000_10000 : [(1000 : ℚ), 10000].Pairwise (· ≤ ·) := by
  norm_num

theorem start_le_1000_10000 : ∀ t ∈ [(1000 : ℚ), 10000], (0 : ℚ) ≤ t := by
  intro t ht
  simp only [List.mem_cons, List.mem_singleton, List.not_mem_nil, or_false] at ht
  rcases ht with h | h <;> rw [h] <;> norm_num

theorem pushedAfter_1000 : pushedAfter [tenFrames] 0 [1000, 10000] 1 = 35 := by
  rw [pushedAfter_succ [tenFrames] 0 [1000, 10000] pairwise_1000_10000 start_le_1000_10000 0 1000
    rfl, pushedAfter_zero, due_1000]
  decide

theorem pushedAfter_1000_10000 : pushedAfter [tenFrames] 0 [1000, 10000] 2 = 135 := by
  rw [pushedAfter_succ [tenFrames] 0 [1000, 10000] pairwise_1000_10000 start_le_1000_10000 1
    10000 rfl, pushedAfter_1000, due_10000]
  decide

theorem start_le_2100_1 : ∀ t ∈ [double2100_1], double900_1 ≤ t := by
  intro t ht
  rw [List.mem_singleton.mp ht]
  norm_num [double900_1, double2100_1]

/-- C3 on a run set up at the time stamp 900.1 with one tick at 2100.1, where
line 125 gives 42: the tick does not lower `pushedDataCount` and leaves it at
most 42. -/
theorem schedule_invariant_witness :
    pushedAfter [tenFrames] double900_1 [double2100_1] 0 ≤
        pushedAfter [tenFrames] double900_1 [double2100_1] 1 ∧
      pushedAfter [tenFrames] double900_1 [double2100_1] 1 ≤ 42 := by
  have h := schedule_invariant [tenFrames] double900_1 [double2100_1]
    (List.pairwise_singleton _ _) start_le_2100_1 0 double2100_1 rfl
  have hdue : ⌊roundToDouble (roundToDouble
      (sampleRateHz * roundToDouble (double2100_1 - double900_1)) / 1000)⌋ = 42 :=
    due_900_1_2100_1
  rw [hdue] at h
  exact h

/-- C5 as stated fails: with ticks at 1000 ms and 10000 ms (non-decreasing, not
before `tStart = 0`), `pushedDataCount` after tick 2 is 135, while
`min (due 10000) (2 * 100) = min 350 200 = 200`. -/
theorem closed_form_counterexample :
    [(1000 : ℚ), 10000].Pairwise (· ≤ ·) ∧ (∀ t ∈ [(1000 : ℚ), 10000], (0 : ℚ) ≤ t) ∧
      pushedAfter [tenFrames] 0 [1000, 10000] 2 = 135 ∧
      min (shouldBeDataPointsCount 0 10000) ((2 : Int) * 100) = 200 ∧
      pushedAfter [tenFrames] 0 [1000, 10000] 2 ≠
        min (shouldBeDataPointsCount 0 10000) ((2 : Int) * 100) := by
  refine ⟨pairwise_1000_10000, start_le_1000_10000, pushedAfter_1000_10000, ?_, ?_⟩
  · rw [due_10000]
    decide
  · rw [due_10000, pushedAfter_1000_10000]
    decide

theorem pushedAfter_closed_form {α : Type} (channelList : List (Channel α)) (tStart : ℚ)
    (ticks : List ℚ) (hsorted : ticks.Pairwise (· ≤ ·)) (hstart : ∀ t ∈ ticks, tStart ≤ t) :
    ∀ n : Nat, n ≤ ticks.length →
      pushedAfter channelList tStart ticks n ≤ (n : Int) * 100 ∧
        (∀ (j : Nat) (u : ℚ), j < n → ticks[j]? = some u →
          pushedAfter channelList tStart ticks n ≤
            shouldBeDataPointsCount tStart u + ((n : Int) - 1 - (j : Int)) * 100) ∧
        (pushedAfter channelList tStart ticks n = (n : Int) * 100 ∨
          ∃ (j : Nat) (u : ℚ), j < n ∧ ticks[j]? = some u ∧
            pushedAfter channelList tStart ticks n =
              shouldBeDataPointsCount tStart u + ((n : Int) - 1 - (j : Int)) * 100)
  | 0, _ => by
    rw [pushedAfter_zero]
    refine ⟨by simp, ?_, Or.inl (by simp)⟩
    intro j u hj
    omega
  | n + 1, hle => by
    have hlt : n < ticks.length := hle
    have hn : ticks[n]? = some ticks[n] := List.getElem?_eq_getElem hlt
    obtain ⟨ih1, ih2, ih3⟩ :=
      pushedAfter_closed_form channelList tStart ticks hsorted hstart n (le_of_lt hlt)
    rw [pushedAfter_succ channelList tStart ticks hsorted hstart n ticks[n] hn]
    refine ⟨?_, ?_, ?_⟩
    · have := min_le_right (shouldBeDataPointsCount tStart ticks[n])
        (pushedAfter channelList tStart ticks n + 100)
      push_cast
      omega
    · intro j u hj hu
      rcases Nat.eq_or_lt_of_le (Nat.le_of_lt_succ hj) with h | h
      · subst h
        rw [hn] at hu
        cases hu
        have := min_le_left (shouldBeDataPointsCount tStart ticks[j])
          (pushedAfter channelList tStart ticks j + 100)
        push_cast
        omega
      · have h1 := ih2 j u h hu
        have := min_le_right (shouldBeDataPointsCount tStart ticks[n])
          (pushedAfter channelList tStart ticks n + 100)
        push_cast
        omega
    · rcases le_total (shouldBeDataPointsCount tStart ticks[n])
        (pushedAfter channelList tStart ticks n + 100) with h | h
      · right
        refine ⟨n, ticks[n], Nat.lt_succ_self n, hn, ?_⟩
        rw [min_eq_left h]
        push_cast
        omega
      · rw [min_eq_right h]
        rcases ih3 with h3 | ⟨j, u, hj, hu, h3⟩
        · left
          push_cast
          omega
        · right
          refine ⟨j, u, Nat.lt_succ_of_lt hj, hu, ?_⟩
          push_cast
          omega

/-- C5 amended: in a run from `pushedDataCount = 0` with non-decreasing tick times
not before `tStart`, with `due t` the value line 125 computes at time `t`, the
count after a tick at `tNow` is `min (due tNow) (count before the tick + 100)`;
after `n` ticks it is the least of `n * 100` and the values
`due (t_j) + (n - j) * 100` over the ticks `j = 1 .. n` (so it is at most
`min (due (t_n)) (n * 100)`); and it is non-decreasing in `n`. Ticks are numbered
from 0 here, so "after `n + 1` ticks" follows tick `n`. -/
theorem emitted_count_closed_form {α : Type} (channelList : List (Channel α)) (tStart : ℚ)
    (ticks : List ℚ) (hsorted : ticks.Pairwise (· ≤ ·)) (hstart : ∀ t ∈ ticks, tStart ≤ t)
    (n : Nat) (tNow : ℚ) (hn : ticks[n]? = some tNow) :
    pushedAfter channelList tStart ticks (n + 1) =
        min (shouldBeDataPointsCount tStart tNow)
          (pushedAfter channelList tStart ticks n + 100) ∧
      pushedAfter channelList tStart ticks (n + 1) ≤
        min (shouldBeDataPointsCount tStart tNow) (((n : Int) + 1) * 100) ∧
      (∀ (j : Nat) (u : ℚ), j ≤ n → ticks[j]? = some u →
        pushedAfter channelList tStart ticks (n + 1) ≤
          shouldBeDataPointsCount tStart u + ((n : Int) - (j : Int)) * 100) ∧
      (pushedAfter channelList tStart ticks (n + 1) = ((n : Int) + 1) * 100 ∨
        ∃ (j : Nat) (u : ℚ), j ≤ n ∧ ticks[j]? = some u ∧
          pushedAfter channelList tStart ticks (n + 1) =
            shouldBeDataPointsCount tStart u + ((n : Int) - (j : Int)) * 100) ∧
      pushedAfter channelList tStart ticks n ≤ pushedAfter channelList tStart ticks (n + 1) := by
  have hlt : n < ticks.length := by
    rcases Nat.lt_or_ge n ticks.length with h | h
    · exact h
    · rw [List.getElem?_eq_none h] at hn
      cases hn
  obtain ⟨h1, h2, h3⟩ :=
    pushedAfter_closed_form channelList tStart ticks hsorted hstart (n + 1) hlt
  have hrec := pushedAfter_succ channelList tStart ticks hsorted hstart n tNow hn
  refine ⟨hrec, ?_, ?_, ?_, ?_⟩
  · apply le_min
    · rw [hrec]
      exact min_le_left _ _
    · push_cast at h1
      exact h1
  · intro j u hj hu
    have := h2 j u (Nat.lt_succ_of_le hj) hu
    push_cast at this
    have e : (n : Int) + 1 - 1 - (j : Int) = (n : Int) - (j : Int) := by ring
    rw [e] at this
    exact this
  · rcases h3 with h3 | ⟨j, u, hj, hu, h3⟩
    · left
      push_cast at h3
      exact h3
    · right
      refine ⟨j, u, Nat.le_of_lt_succ hj, hu, ?_⟩
      push_cast at h3
      have e : (n : Int) + 1 - 1 - (j : Int) = (n : Int) - (j : Int) := by ring
      rw [e] at h3
      exact h3
  · rw [pushedAfter_succ_eq_streamData channelList tStart ticks n tNow hn]
    exact streamData_pushedDataCount_le _ tNow

/-- C5 amended, on the ticks at 1000 ms and 10000 ms: after the second tick the
count is `min 350 (35 + 100) = 135`. -/
theorem emitted_count_closed_form_witness :
    pushedAfter [tenFrames] 0 [1000, 10000] 2 =
      min 350 (pushedAfter [tenFrames] 0 [1000, 10000] 1 + 100) := by
  have h := (emitted_count_closed_form [tenFrames] 0 [1000, 10000] pairwise_1000_10000
    start_le_1000_10000 1 10000 rfl).1
  rw [due_10000] at h
  exact h

/-- C6 as stated fails: after a stall of ten seconds the first call emits 100 of
the 350 due frames, and a second call at the same instant computes
`newDataPointsCount = 100`, calls the sinks and raises `pushedDataCount` to 200. -/
theorem zero_elapsed_counterexample :
    (streamData (initState [tenFrames] 0) 10000).1.pushedDataCount = 100 ∧
      newDataPointsCount (streamData (initState [tenFrames] 0) 10000).1 10000 = 100 ∧
      (streamData (streamData (initState [tenFrames] 0) 10000).1 10000).2 ≠ [] ∧
      (streamData
        (streamData (initState [tenFrames] 0) 10000).1 10000).1.pushedDataCount = 200 := by
  simp [streamData, newDataPointsCount, initState, due_10000, forEachChannel]

/-- C6 amended: when the backlog before a call, the due count that line 125
computes minus `pushedDataCount`, is at most 100 (the call is not cut short by the
cap), a second call with the same `tNow` computes `newDataPointsCount ≤ 0`
(exactly 0 if `pushedDataCount` was not above the due count), calls no sink and
leaves the state unchanged. -/
theorem zero_elapsed_idempotent {α : Type} (s : StreamState α) (tNow : ℚ)
    (hback : shouldBeDataPointsCount s.tStart tNow - s.pushedDataCount ≤ 100) :
    newDataPointsCount (streamData s tNow).1 tNow ≤ 0 ∧
      (s.pushedDataCount ≤ shouldBeDataPointsCount s.tStart tNow →
        newDataPointsCount (streamData s tNow).1 tNow = 0) ∧
      streamData (streamData s tNow).1 tNow = ((streamData s tNow).1, []) := by
  have hcount : newDataPointsCount s tNow =
      shouldBeDataPointsCount s.tStart tNow - s.pushedDataCount := min_eq_left hback
  have hnext : newDataPointsCount (streamData s tNow).1 tNow =
      min (shouldBeDataPointsCount s.tStart tNow -
        (s.pushedDataCount + max (newDataPointsCount s tNow) 0)) 100 := by
    unfold newDataPointsCount
    rw [streamData_tStart, streamData_pushedDataCount]
    rfl
  have hle : newDataPointsCount (streamData s tNow).1 tNow ≤ 0 := by
    rw [hnext, hcount]
    have h1 := le_max_left (shouldBeDataPointsCount s.tStart tNow - s.pushedDataCount) 0
    have h2 := min_le_left (shouldBeDataPointsCount s.tStart tNow -
      (s.pushedDataCount + max (shouldBeDataPointsCount s.tStart tNow - s.pushedDataCount) 0)) 100
    omega
  refine ⟨hle, ?_, streamData_of_not_pos _ tNow (not_lt.mpr hle)⟩
  intro hp
  rw [hnext, hcount, max_eq_left (by omega)]
  have e : shouldBeDataPointsCount s.tStart tNow -
      (s.pushedDataCount + (shouldBeDataPointsCount s.tStart tNow - s.pushedDataCount)) = 0 := by
    ring
  rw [e]
  decide

/-- C6 amended, one second into the run: the backlog is 35, and a second call at
the same instant emits nothing. -/
theorem zero_elapsed_idempotent_witness :
    newDataPointsCount (streamData (initState [tenFrames] 0) 1000).1 1000 = 0 ∧
      streamData (streamData (initState [tenFrames] 0) 1000).1 1000 =
        ((streamData (initState [tenFrames] 0) 1000).1, []) := by
  have hdue : shouldBeDataPointsCount (initState [tenFrames] 0).tStart 1000 = 35 := due_1000
  have h := zero_elapsed_idempotent (initState [tenFrames] 0) 1000
    (by rw [hdue]; decide)
  exact ⟨h.2.1 (by rw [hdue]; decide), h.2.2⟩

theorem stalled_succ {α : Type} (channelList : List (Channel α)) (tStart tNow : ℚ) (n : Nat) :
    stalled channelList tStart tNow (n + 1) =
      (streamData (stalled channelList tStart tNow n) tNow).1 := by
  unfold stalled
  rw [List.replicate_succ', runTicks_append, runTicks_cons, runTicks_nil]

theorem stalled_tStart {α : Type} (channelList : List (Channel α)) (tStart tNow : ℚ) (n : Nat) :
    (stalled channelList tStart tNow n).tStart = tStart := by
  unfold stalled
  rw [runTicks_tStart]
  rfl

theorem stalled_channelList {α : Type} (channelList : List (Channel α)) (tStart tNow : ℚ)
    (n : Nat) : (stalled channelList tStart tNow n).channelList = channelList := by
  unfold stalled
  rw [runTicks_channelList]
  rfl

theorem stalled_pushedDataCount {α : Type} (channelList : List (Channel α)) (tStart tNow : ℚ)
    (h0 : 0 ≤ shouldBeDataPointsCount tStart tNow) :
    ∀ n : Nat, (stalled channelList tStart tNow n).pushedDataCount =
      min (shouldBeDataPointsCount tStart tNow) (100 * (n : Int))
  | 0 => by
    simp only [stalled, List.replicate_zero, runTicks_nil, initState]
    rw [min_eq_right (by simpa using h0)]
    simp
  | n + 1 => by
    have ih := stalled_pushedDataCount channelList tStart tNow h0 n
    have hle : (stalled channelList tStart tNow n).pushedDataCount ≤
        shouldBeDataPointsCount (stalled channelList tStart tNow n).tStart tNow := by
      rw [stalled_tStart, ih]
      exact min_le_left _ _
    rw [stalled_succ, streamData_pushedDataCount_of_le _ _ hle, stalled_tStart, ih]
    push_cast
    simp only [min_def]
    split_ifs <;> omega

theorem batch_length_streamData {α : Type} (s : StreamState α)
    (tNow : ℚ) (call : SinkCall α) (hcall : call ∈ (streamData s tNow).2) :
    0 < newDataPointsCount s tNow ∧ (call.batch.length : Int) = newDataPointsCount s tNow := by
  rcases streamData_log s tNow with h0 | ⟨hpos, h1⟩
  · rw [h0] at hcall
    cases hcall
  · rw [h1] at hcall
    obtain ⟨channel, _, hb⟩ := mem_forEachChannel _ _ call s.channelList 0 hcall
    rw [hb, newDataPoints_length]
    exact ⟨hpos, Int.toNat_of_nonneg (le_of_lt hpos)⟩

theorem streamData_log_length {α : Type} (s : StreamState α) (tNow : ℚ)
    (hpos : 0 < newDataPointsCount s tNow) :
    (streamData s tNow).2.length = 2 * s.channelList.length := by
  rw [streamData_of_pos s tNow hpos]
  exact forEachChannel_length _ _ s.channelList 0

/-- C7: from `pushedDataCount = 0`, with all ticks at one instant whose due count
`d` (the value line 125 computes there) exceeds 100: after `n` ticks
`pushedDataCount = min d (100 * n)`; a tick made while the backlog
`d - pushedDataCount` is at least 100 emits exactly 100 frames to every sink; a
tick made with a backlog strictly between 0 and 100 is tick number `d / 100`,
emits the remaining `d mod 100` frames and brings `pushedDataCount` to `d`; and
once `100 * n ≥ d`, `pushedDataCount = d` and a tick emits nothing. -/
theorem catch_up_after_stall {α : Type} (channelList : List (Channel α)) (tStart tNow : ℚ)
    (d : Int) (hd : d = shouldBeDataPointsCount tStart tNow) (hbig : 100 < d) (n : Nat) :
    (stalled channelList tStart tNow n).pushedDataCount = min d (100 * (n : Int)) ∧
      (100 ≤ d - (stalled channelList tStart tNow n).pushedDataCount →
        newDataPointsCount (stalled channelList tStart tNow n) tNow = 100 ∧
          (stalled channelList tStart tNow (n + 1)).pushedDataCount =
            (stalled channelList tStart tNow n).pushedDataCount + 100 ∧
          (streamData (stalled channelList tStart tNow n) tNow).2.length =
            2 * channelList.length ∧
          ∀ call ∈ (streamData (stalled channelList tStart tNow n) tNow).2,
            call.batch.length = 100) ∧
      (0 < d - (stalled channelList tStart tNow n).pushedDataCount →
        d - (stalled channelList tStart tNow n).pushedDataCount < 100 →
        (n : Int) = d / 100 ∧
          newDataPointsCount (stalled channelList tStart tNow n) tNow = d % 100 ∧
          (stalled channelList tStart tNow (n + 1)).pushedDataCount = d ∧
          (streamData (stalled channelList tStart tNow n) tNow).2.length =
            2 * channelList.length ∧
          ∀ call ∈ (streamData (stalled channelList tStart tNow n) tNow).2,
            (call.batch.length : Int) = d % 100) ∧
      (d ≤ 100 * (n : Int) →
        (stalled channelList tStart tNow n).pushedDataCount = d ∧
          streamData (stalled channelList tStart tNow n) tNow =
            (stalled channelList tStart tNow n, [])) := by
  have hdue : shouldBeDataPointsCount tStart tNow = d := hd.symm
  have hclosed := stalled_pushedDataCount channelList tStart tNow (by rw [hdue]; omega) n
  rw [hdue] at hclosed
  have hcount : newDataPointsCount (stalled channelList tStart tNow n) tNow =
      min (d - (stalled channelList tStart tNow n).pushedDataCount) 100 := by
    unfold newDataPointsCount
    rw [stalled_tStart, hdue]
  have hlen : 0 < newDataPointsCount (stalled channelList tStart tNow n) tNow →
      (streamData (stalled channelList tStart tNow n) tNow).2.length =
        2 * channelList.length := by
    intro hpos
    rw [streamData_log_length _ _ hpos, stalled_channelList]
  refine ⟨hclosed, ?_, ?_, ?_⟩
  · intro hback
    have hc : newDataPointsCount (stalled channelList tStart tNow n) tNow = 100 := by
      rw [hcount]
      exact min_eq_right hback
    have hpos : 0 < newDataPointsCount (stalled channelList tStart tNow n) tNow := by
      rw [hc]
      decide
    refine ⟨hc, ?_, hlen hpos, ?_⟩
    · rw [stalled_succ, streamData_of_pos _ _ hpos, hc]
    · intro call hcall
      have := (batch_length_streamData _ tNow call hcall).2
      rw [hc] at this
      exact_mod_cast this
  · intro hlo hhi
    have hn : (n : Int) = d / 100 := by
      rw [hclosed] at hlo hhi
      simp only [min_def] at hlo hhi
      split_ifs at hlo hhi <;> omega
    have hp : (stalled channelList tStart tNow n).pushedDataCount = 100 * (d / 100) := by
      rw [hclosed, ← hn]
      apply min_eq_right
      rw [hn]
      omega
    have hc : newDataPointsCount (stalled channelList tStart tNow n) tNow = d % 100 := by
      rw [hcount, min_eq_left (le_of_lt hhi), hp]
      omega
    have hpos : 0 < newDataPointsCount (stalled channelList tStart tNow n) tNow := by
      rw [hcount, min_eq_left (le_of_lt hhi)]
      exact hlo
    refine ⟨hn, hc, ?_, hlen hpos, ?_⟩
    · rw [stalled_succ, streamData_of_pos _ _ hpos, hc]
      simp only
      rw [hp]
      omega
    · intro call hcall
      have := (batch_length_streamData _ tNow call hcall).2
      rw [hc] at this
      exact this
  · intro hdone
    have hp : (stalled channelList tStart tNow n).pushedDataCount = d := by
      rw [hclosed]
      exact min_eq_left hdone
    refine ⟨hp, ?_⟩
    apply streamData_of_not_pos
    rw [hcount, hp, sub_self]
    decide

/-- C7 after a stall of ten seconds (due 350): the first tick emits 100, the next
tick at the same instant another 100, the fourth the remaining 50, and the fifth
nothing. And set up at the time stamp 900.1 and stalled until 3900.1, where line
125 gives 105: the first tick emits 100, the second the remaining 5. -/
theorem catch_up_after_stall_witness :
    ((stalled [tenFrames] 0 10000 1).pushedDataCount = 100 ∧
      (stalled [tenFrames] 0 10000 2).pushedDataCount = 200 ∧
      newDataPointsCount (stalled [tenFrames] 0 10000 3) 10000 = 50 ∧
      (stalled [tenFrames] 0 10000 4).pushedDataCount = 350 ∧
      streamData (stalled [tenFrames] 0 10000 4) 10000 =
        (stalled [tenFrames] 0 10000 4, [])) ∧
      (stalled [tenFrames] double900_1 double3900_1 1).pushedDataCount = 100 ∧
      newDataPointsCount (stalled [tenFrames] double900_1 double3900_1 1) double3900_1 = 5 ∧
      (stalled [tenFrames] double900_1 double3900_1 2).pushedDataCount = 105 := by
  have hd : (350 : Int) = shouldBeDataPointsCount 0 10000 := due_10000.symm
  have h0 := catch_up_after_stall [tenFrames] 0 10000 350 hd (by decide) 0
  have h1 := catch_up_after_stall [tenFrames] 0 10000 350 hd (by decide) 1
  have h3 := catch_up_after_stall [tenFrames] 0 10000 350 hd (by decide) 3
  have h4 := catch_up_after_stall [tenFrames] 0 10000 350 hd (by decide) 4
  have p0 : (stalled [tenFrames] 0 10000 0).pushedDataCount = 0 := by
    rw [h0.1]
    decide
  have p1 : (stalled [tenFrames] 0 10000 1).pushedDataCount = 100 := by
    rw [h1.1]
    decide
  have p3 : (stalled [tenFrames] 0 10000 3).pushedDataCount = 300 := by
    rw [h3.1]
    decide
  have e1 := (h0.2.1 (by rw [p0]; decide)).2.1
  have e2 := (h1.2.1 (by rw [p1]; decide)).2.1
  have e3 := (h3.2.2.1 (by rw [p3]; decide) (by rw [p3]; decide)).2.1
  have e4 := h4.2.2.2 (by decide)
  rw [p0] at e1
  rw [p1] at e2
  have hd2 : (105 : Int) = shouldBeDataPointsCount double900_1 double3900_1 :=
    due_900_1_3900_1.symm
  have g1 := catch_up_after_stall [tenFrames] double900_1 double3900_1 105 hd2 (by decide) 1
  have q1 : (stalled [tenFrames] double900_1 double3900_1 1).pushedDataCount = 100 := by
    rw [g1.1]
    decide
  have f := g1.2.2.1 (by rw [q1]; decide) (by rw [q1]; decide)
  exact ⟨⟨e1, e2, e3, e4.1, e4.2⟩, q1, f.2.1, f.2.2.1⟩

/-- C9: for a non-empty channel and `pushedDataCount ≥ 0`, every index
`iData = (pushedDataCount + iDp) % channel.data.length` lies in
`0 ≤ iData < channel.data.length` and the lookup `channel.data[iData]` finds a
frame; every state of a run from `pushedDataCount = 0` has `pushedDataCount ≥ 0`,
and no batch handed over in such a run holds an undefined frame. -/
theorem index_safety {α : Type} (channelList : List (Channel α)) (tStart : ℚ) (ticks : List ℚ)
    (hne : ∀ channel ∈ channelList, channel.data ≠ []) :
    (∀ channel ∈ channelList, ∀ (pushedDataCount : Int) (iDp : Nat), 0 ≤ pushedDataCount →
      ∃ iData : Int,
        jsRem (pushedDataCount + (iDp : Int)) (channel.data.length : Int) = some iData ∧
          0 ≤ iData ∧ iData < (channel.data.length : Int) ∧
          ∃ frame, jsIndex channel.data (some iData) = some frame) ∧
      0 ≤ (runTicks (initState channelList tStart) ticks).1.pushedDataCount ∧
      ∀ call ∈ (runTicks (initState channelList tStart) ticks).2, none ∉ call.batch := by
  refine ⟨?_, runTicks_pushedDataCount_le ticks (initState channelList tStart),
    not_mem_batch_runTicks ticks (initState channelList tStart) hne (le_refl 0)⟩
  intro channel hch p iDp hp
  have hlen : 0 < channel.data.length := List.length_pos.mpr (hne channel hch)
  have hpos : (0 : Int) < (channel.data.length : Int) := by exact_mod_cast hlen
  have hsum : (0 : Int) ≤ p + (iDp : Int) := by omega
  refine ⟨(p + (iDp : Int)) % (channel.data.length : Int), jsRem_nonneg hsum hpos,
    Int.emod_nonneg _ (ne_of_gt hpos), Int.emod_lt_of_pos _ hpos, ?_⟩
  have h := jsIndex_jsRem channel.data p iDp hp (hne channel hch)
  rw [jsRem_nonneg hsum hpos] at h
  rw [h]
  exact getElem?_mod_isSome channel.data (p.toNat + iDp) (hne channel hch)

theorem demo_channels_nonempty : ∀ channel ∈ [tenFrames, threeFrames], channel.data ≠ [] := by
  intro channel h
  simp only [List.mem_cons, List.mem_singleton, List.not_mem_nil, or_false] at h
  rcases h with h | h <;> rw [h] <;> decide

/-- C9 on a three-frame channel at `pushedDataCount = 35`, `iDp = 7`: the index
read is 0, inside the channel. -/
theorem index_safety_witness :
    ∃ iData : Int, jsRem (35 + ((7 : Nat) : Int)) (threeFrames.data.length : Int) = some iData ∧
      0 ≤ iData ∧ iData < (threeFrames.data.length : Int) ∧
      ∃ frame, jsIndex threeFrames.data (some iData) = some frame :=
  (index_safety [tenFrames, threeFrames] 0 [1000] demo_channels_nonempty).1 threeFrames
    (by simp) 35 7 (by decide)

/-- C10: in one tick all batches handed over have the same length, the two sinks
of a channel get the same batches, and after any run from `pushedDataCount = 0`
each sink of each channel has been sent `pushedDataCount` frames in total. -/
theorem channel_lockstep {α : Type} (channelList : List (Channel α)) (tStart : ℚ)
    (ticks : List ℚ) :
    (∀ (s : StreamState α) (tNow : ℚ), ∀ call₁ ∈ (streamData s tNow).2,
      ∀ call₂ ∈ (streamData s tNow).2,
        call₁.batch.length = call₂.batch.length) ∧
      (∀ (s : StreamState α) (tNow : ℚ) (c : Nat),
        batchesOf c Sink.heatmapSeries2D (streamData s tNow).2 =
          batchesOf c Sink.surfaceSeries3D (streamData s tNow).2) ∧
      ∀ (c : Nat) (k : Sink), c < channelList.length →
        ((delivered c k (runTicks (initState channelList tStart) ticks).2).length : Int) =
          (runTicks (initState channelList tStart) ticks).1.pushedDataCount := by
  refine ⟨?_, ?_, ?_⟩
  · intro s tNow call₁ h₁ call₂ h₂
    have e₁ := (batch_length_streamData s tNow call₁ h₁).2
    have e₂ := (batch_length_streamData s tNow call₂ h₂).2
    omega
  · intro s tNow c
    rcases streamData_log s tNow with h0 | ⟨_, h1⟩
    · rw [h0]
      rfl
    · rw [h1, batchesOf_forEachChannel _ _ c _ s.channelList 0 (Nat.zero_le c),
        batchesOf_forEachChannel _ _ c _ s.channelList 0 (Nat.zero_le c)]
  · intro c k hc
    have hget : (initState channelList tStart).channelList[c]? = some channelList[c] :=
      List.getElem?_eq_getElem hc
    rw [delivered_runTicks c k _ ticks (initState channelList tStart) hget, newDataPoints_length]
    have hle := runTicks_pushedDataCount_le ticks (initState channelList tStart)
    have h0 : (initState channelList tStart).pushedDataCount = 0 := rfl
    rw [h0] at hle ⊢
    rw [sub_zero]
    exact Int.toNat_of_nonneg hle

/-- C10 with a ten-frame and a three-frame channel after ticks at 1000 ms and
10000 ms: the surface series of the second channel has been sent 135 frames. -/
theorem channel_lockstep_witness :
    (1 : Nat) < [tenFrames, threeFrames].length ∧
      ((delivered 1 Sink.surfaceSeries3D
        (runTicks (initState [tenFrames, threeFrames] 0) [1000, 10000]).2).length : Int) =
          135 := by
  have h := (channel_lockstep [tenFrames, threeFrames] 0 [1000, 10000]).2.2 1
    Sink.surfaceSeries3D (by decide)
  have hp : (runTicks (initState [tenFrames, threeFrames] 0)
      [1000, 10000]).1.pushedDataCount = 135 := by
    simp [runTicks, streamData, newDataPointsCount, initState, due_1000, due_10000]
  rw [hp] at h
  exact ⟨by decide, h⟩

end SurfaceScrollingGrid
